import Mathlib

/-!
Shallow embedding of the `cinnamon_generic` repository
(components/calibrator.py, components/callback.py, api/commands.py,
configurations/calibrator.py, configurations/pipeline.py), together with
theorems settling the specification claims about it.

Python values are modelled by an explicit inductive type (`PyValue`),
Python exceptions by `Except`, and Python `None` by dedicated
constructors / `Option`.
-/

namespace Cinnamon

/-- Model of the Python values that can appear as a validator metric or as a
stored attribute: `None`, a `float` (modelled exactly by `ℚ`), an `int`,
a `bool` or a `str`.  The Python check `type(v) != float` distinguishes the
`float` constructor from all others. -/
inductive PyValue : Type where
  | pynone : PyValue
  | float (q : ℚ) : PyValue
  | int (n : ℤ) : PyValue
  | bool (b : Bool) : PyValue
  | str (s : String) : PyValue
deriving DecidableEq, Repr

/-- `type(v) == float` in Python: true exactly on the `float` constructor. -/
def PyValue.isFloat : PyValue → Bool
  | .float _ => true
  | _ => false

/-- `ValidateCondition` enum from components/calibrator.py. -/
inductive ValidateCondition : Type where
  | maximization : ValidateCondition
  | minimization : ValidateCondition
deriving DecidableEq, Repr

/-- Embeds `Calibrator.evaluate_combination` (components/calibrator.py,
lines 83-124), specialised to the step that decides its error behaviour:
after running the validator delta copy, the configured metric field's value
`validation_on_value` is inspected; `if validation_on_value is None or
type(validation_on_value) != float:` a `RuntimeError` is raised, otherwise
the value is negated under `MAXIMIZATION` and returned unchanged under
`MINIMIZATION`.  The validator run is abstracted into the metric value it
produces, which is the function's only input besides the configured
direction. -/
def evaluate_combination (validate_condition : ValidateCondition)
    (validation_on_value : PyValue) : Except String ℚ :=
  match validation_on_value with
  | .float q =>
      if validate_condition = ValidateCondition.maximization then
        Except.ok (-q)
      else
        Except.ok q
  | _ => Except.error "RuntimeError: Expected a float validation value"

/-! ## Callback subsystem (components/callback.py) -/

/-- A Python attribute stored on a `Callback` object: either a hookpoint
handler (a bound method accepting `logs`) or a plain non-callable value
(such as the `component` and `save_path` fields set in
`Callback.__init__`).  Calling a plain value raises `TypeError`. -/
inductive PyAttr : Type where
  | handler : PyAttr
  | plainValue (v : PyValue) : PyAttr
deriving DecidableEq, Repr

/-- Observable event of a handler invocation: the hookpoint name together
with the `logs` argument it received. -/
inductive CbEvent : Type where
  | invoked (hookpoint : String) (logs : Option PyValue) : CbEvent
deriving DecidableEq, Repr

/-- A `Callback` object, reduced to its attribute table (name to attribute),
which is all `Callback.run` consults. -/
structure Callback : Type where
  attrs : List (String × PyAttr)
deriving DecidableEq, Repr

/-- Embeds `Callback.run` (components/callback.py, lines 39-55) under Python
semantics:
`if hasattr(self, hookpoint): getattr(self, hookpoint)(logs=logs)`.
With the default `hookpoint=None`, `hasattr(self, None)` raises
`TypeError` (the attribute name must be a string).  When the attribute
exists but is not callable, calling it raises `TypeError`.  When no
attribute of that name exists, nothing happens.  The result records the
handler invocations performed. -/
def Callback.run (self : Callback) (hookpoint : Option String)
    (logs : Option PyValue) : Except String (List CbEvent) :=
  match hookpoint with
  | none => Except.error "TypeError: hasattr(): attribute name must be string"
  | some hp =>
      match self.attrs.lookup hp with
      | none => Except.ok []
      | some PyAttr.handler => Except.ok [CbEvent.invoked hp logs]
      | some (PyAttr.plainValue _) =>
          Except.error "TypeError: object is not callable"

/-- The attribute table produced by `Callback.__init__`
(components/callback.py, lines 14-20): `self.component = None` and
`self.save_path = None`, both plain non-callable values. -/
def initCallback : Callback :=
  Callback.mk [("component", PyAttr.plainValue PyValue.pynone),
               ("save_path", PyAttr.plainValue PyValue.pynone)]

/-! ## hookpoint_guard (components/callback.py, lines 82-127) -/

/-- Observable event of a guarded call: a hookpoint fired on the callbacks
object (with the `logs` value passed, if any), or the invocation of the
wrapped function with its original keyword inputs. -/
inductive GEvent (α : Type) : Type where
  | fire (hookpoint : String) (logs : Option α) : GEvent α
  | callFunc (inputs : List (String × Option String)) : GEvent α
deriving DecidableEq, Repr

/-- Keyword inputs of a guarded call: a map from keyword name to the value
supplied there.  Only whether the value under `"callbacks"` is Python
`None` matters to the guard, so values are modelled as `Option String`
(`none` is Python `None`, `some c` is a callbacks object named `c`). -/
abbrev Kwargs : Type := List (String × Option String)

/-- Embeds the `func_wrap` closure built by `hookpoint_guard`
(components/callback.py, lines 104-127).  `hookpoint` is the base
hookpoint name; `f` is the wrapped function, which may raise (modelled by
`Except`).  Mirrors the source exactly: `callbacks` is read from the
keyword inputs (staying `None` when the key is absent or maps to `None`);
if non-`None`, `"{hookpoint}_begin"` is fired; then `func(*args, **kwargs)`
runs — if it raises, the exception propagates and nothing further happens;
otherwise, if non-`None`, `"{hookpoint}_end"` is fired with the result as
`logs`, and the result is returned unchanged.  The second component is the
ordered trace of events. -/
def func_wrap {α : Type} {ε : Type} (hookpoint : String)
    (f : Kwargs → Except ε α) (kwargs : Kwargs) :
    Except ε α × List (GEvent α) :=
  let callbacks : Option String :=
    match List.lookup "callbacks" kwargs with
    | none => none
    | some v => v
  let preEvents : List (GEvent α) :=
    match callbacks with
    | none => []
    | some _ => [GEvent.fire (hookpoint ++ "_begin") none]
  match f kwargs with
  | Except.error e => (Except.error e, preEvents ++ [GEvent.callFunc kwargs])
  | Except.ok res =>
      match callbacks with
      | none => (Except.ok res, preEvents ++ [GEvent.callFunc kwargs])
      | some _ =>
          (Except.ok res,
            preEvents ++ [GEvent.callFunc kwargs] ++
              [GEvent.fire (hookpoint ++ "_end") (some res)])

/-! ## GridSearchCalibrator (components/calibrator.py) -/

/-- The errors `GridSearchCalibrator.run` can raise:
`UnsetValidatorException`, `MissingSearchSpaceException`, and the
`IndexError` implicit in `calibration_results[0]` on an empty list. -/
inductive CalibErr : Type where
  | unsetValidator : CalibErr
  | missingSearchSpace : CalibErr
  | indexError : CalibErr
deriving DecidableEq, Repr

/-- Modelled from the spec: `get_dict_values_combinations` belongs to the
external core library (`cinnamon_core.utility.python_utility`, not part of
this repository's sources).  Per the spec it computes "the full cartesian
product of all parameter candidate lists (every combination of every
parameter; total count = product of list lengths)" enumerated in order,
the first parameter varying slowest. -/
def get_dict_values_combinations {α : Type} :
    List (String × List α) → List (List (String × α))
  | [] => [[]]
  | (k, vs) :: rest =>
      vs.flatMap (fun v =>
        (get_dict_values_combinations rest).map (fun c => (k, v) :: c))

/-- Python's `sorted(l, key=lambda pair: pair[0])`: the unique stable sort
ascending by first component, realized here by insertion sort (which is
stable and sorts ascending under the given relation). -/
def pySortedByFst {α : Type} (l : List (ℚ × α)) : List (ℚ × α) :=
  List.insertionSort (fun a b => a.1 ≤ b.1) l

/-- The first element of a list attaining the minimal first component
(ties resolved to the earliest element), used to characterize the head of
the stable sort. -/
def firstMinByFst {α : Type} : List (ℚ × α) → Option (ℚ × α)
  | [] => none
  | x :: xs =>
      match firstMinByFst xs with
      | none => some x
      | some m => if x.1 ≤ m.1 then some x else some m

/-- Embeds `GridSearchCalibrator.run` (components/calibrator.py,
lines 134-165).  The validator is abstracted into the score function its
`evaluate_combination` computes per combination (`none` models an unset
validator, raising `UnsetValidatorException`); the validator
configuration's search space is passed explicitly (`none` raising
`MissingSearchSpaceException`).  Mirrors the source: enumerate all
combinations via `get_dict_values_combinations`, evaluate each in order in
a sequential loop appending `(combination_result, combination)` pairs,
stable-sort by the pair's first component, and return
`calibration_results[0]` from the sorted list.  The second component of
the result is the `calibration_results` list as built by the loop — the
trace of `evaluate_combination` calls in evaluation order. -/
def GridSearchCalibrator.run {α : Type}
    (validator : Option (List (String × α) → ℚ))
    (search_space : Option (List (String × List α))) :
    Except CalibErr ((ℚ × List (String × α)) × List (ℚ × List (String × α))) :=
  match validator with
  | none => Except.error CalibErr.unsetValidator
  | some evalCombination =>
      match search_space with
      | none => Except.error CalibErr.missingSearchSpace
      | some sp =>
          let combinations := get_dict_values_combinations sp
          let calibration_results :=
            combinations.foldl (fun acc c => acc ++ [(evalCombination c, c)]) []
          match pySortedByFst calibration_results with
          | [] => Except.error CalibErr.indexError
          | best :: _ => Except.ok (best, calibration_results)

/-! ## TunableConfiguration.get_search_space (configurations/calibrator.py) -/

/-- A flat search-space mapping, modelled as a Python dict: an ordered
association list from dotted key to search-space entry value. -/
abbrev SDict : Type := List (String × String)

/-- First-occurrence association lookup, `d[k]`-style read access to the
mapping a dict entry list denotes. -/
def dlookup : SDict → String → Option String
  | [], _ => none
  | (k0, v0) :: d, k => if k = k0 then some v0 else dlookup d k

/-- One Python dict write `d[k] = v`: overwrites in place when the key is
present, appends otherwise. -/
def dictInsert (d : SDict) (k : String) (v : String) : SDict :=
  if d.any (fun p => decide (p.1 = k)) then
    d.map (fun p => if p.1 = k then (k, v) else p)
  else
    d ++ [(k, v)]

/-- Python `{**a, **b}`: the entries of `b` written into `a` in order, so a
later entry overwrites an earlier one with the identical key. -/
def dictMerge (a b : SDict) : SDict :=
  b.foldl (fun d kv => dictInsert d kv.1 kv.2) a

/-- Last-occurrence lookup: the value the dict-construction semantics
assign to a key from a (possibly duplicated) entry list. -/
def lastLookup : SDict → String → Option String
  | [], _ => none
  | (k0, v0) :: d, k =>
      (lastLookup d k).orElse (fun _ => if k = k0 then some v0 else none)

/-- A tunable configuration class, reduced to what
`TunableConfiguration.get_search_space` consults on its default instance:
the `calibration_config` reference — resolved through the registry to the
referenced configuration's declared `search_space` entries, inlined here —
(`none` models an unset `calibration_config`), and its registration-typed
children other than `calibration_config`, as `(field name, referenced
configuration)` pairs in declaration order.  Children are tunable by
construction, matching the claims' hypothesis that every reachable child
is a `TunableConfiguration` (otherwise the source raises
`NonTunableConfigurationException`). -/
inductive TunableConfiguration : Type where
  | mk (calibration_config : Option (List (String × String)))
       (children : List (String × TunableConfiguration)) : TunableConfiguration

/-- The `calibration_config` field of a tunable configuration. -/
def TunableConfiguration.calibration_config :
    TunableConfiguration → Option (List (String × String))
  | .mk c _ => c

/-- The registration-typed children of a tunable configuration. -/
def TunableConfiguration.children :
    TunableConfiguration → List (String × TunableConfiguration)
  | .mk _ cs => cs

/-- Error raised by `get_search_space`:
`UnsetCalibrationConfigurationException`. -/
inductive SearchSpaceErr : Type where
  | unsetCalibrationConfiguration : SearchSpaceErr
deriving DecidableEq, Repr

/-- The dotted-key construction of the source:
`f'{parent_key}.{key}' if parent_key is not None else key`. -/
def dottedKey (parentKey : Option String) (k : String) : String :=
  match parentKey with
  | none => k
  | some p => p ++ "." ++ k

mutual

/-- Embeds `TunableConfiguration.get_search_space`
(configurations/calibrator.py, lines 41-74).  Mirrors the source: raise
`UnsetCalibrationConfigurationException` when `calibration_config` is
`None`; recurse into every registration-typed non-calibration child with
the buffer threaded through and the parent key extended by the child's
field name (dot-joined when a parent key exists); finally merge the
calibration configuration's own `search_space` entries, keyed at the
current prefix level, into the buffer via `{**buffer, **search_space}`. -/
def TunableConfiguration.get_search_space (cfg : TunableConfiguration)
    (buffer : SDict) (parentKey : Option String) :
    Except SearchSpaceErr SDict :=
  match cfg with
  | .mk none _ => Except.error SearchSpaceErr.unsetCalibrationConfiguration
  | .mk (some searchEntries) children =>
      match searchSpaceChildren children buffer parentKey with
      | Except.error e => Except.error e
      | Except.ok buf =>
          Except.ok (dictMerge buf
            (searchEntries.map (fun kv => (dottedKey parentKey kv.1, kv.2))))

/-- The `for child_key, child in children.items()` loop of
`get_search_space`: recurse into each child in order, threading the
buffer. -/
def searchSpaceChildren (cs : List (String × TunableConfiguration))
    (buffer : SDict) (parentKey : Option String) :
    Except SearchSpaceErr SDict :=
  match cs with
  | [] => Except.ok buffer
  | (childName, child) :: rest =>
      match child.get_search_space buffer
          (some (dottedKey parentKey childName)) with
      | Except.error e => Except.error e
      | Except.ok b => searchSpaceChildren rest b parentKey

end

mutual

/-- Whether every configuration reachable from `cfg` (itself included) has
its `calibration_config` set — the hypothesis of the search-space claim. -/
def TunableConfiguration.allCalibSet : TunableConfiguration → Bool
  | .mk calib children => calib.isSome && allCalibSetChildren children

/-- `allCalibSet` over a child list. -/
def allCalibSetChildren : List (String × TunableConfiguration) → Bool
  | [] => true
  | c :: rest => c.2.allCalibSet && allCalibSetChildren rest

end

mutual

/-- Specification-level description of the flattened search space,
following the spec's words: the result is a single flat mapping obtained
by merging every child's flattened search space (children in declared
order, a later entry overwriting an earlier one with the identical dotted
key), and then the configuration's own calibration entries at the current
prefix level, merged after the children's entries.  Each nested child's
entries thereby appear under keys prefixed by the dot-joined path of field
names leading to that child. -/
def specFlatten (cfg : TunableConfiguration) (parentKey : Option String) :
    SDict :=
  match cfg with
  | .mk calib children =>
      dictMerge (specFlattenChildren children parentKey)
        ((calib.getD []).map (fun kv => (dottedKey parentKey kv.1, kv.2)))

/-- The merge of the flattened search spaces of a child list, in declared
order (later children overwrite earlier ones on identical keys). -/
def specFlattenChildren :
    List (String × TunableConfiguration) → Option String → SDict
  | [], _ => []
  | (n, c) :: rest, parentKey =>
      dictMerge (specFlatten c (some (dottedKey parentKey n)))
        (specFlattenChildren rest parentKey)

end

/-- The two-level example of the claim: a root configuration whose
calibration configuration declares one search-space entry
`("entry1", "v1")` and which references one tunable child under field name
`"child"`, the child declaring one entry `("entry2", "v2")` and no further
children. -/
def exampleChild : TunableConfiguration :=
  TunableConfiguration.mk (some [("entry2", "v2")]) []

/-- The root configuration of the two-level example. -/
def exampleRoot : TunableConfiguration :=
  TunableConfiguration.mk (some [("entry1", "v1")]) [("child", exampleChild)]

/-! ## Command layer (api/commands.py) -/

/-- Embeds `routine_multiple_inference` (api/commands.py, lines 328-361),
reduced to the pairing logic it performs.  Mirrors the source exactly:
`if routine_paths is None and routine_names is None:` raise
`AttributeError`; `if routine_paths is not None:` then
`routine_names = [None] * len(routine_paths)` (discarding any supplied
names); `else routine_paths = [None] * len(routine_names)`; then
`routine_inference` is invoked once per `zip(routine_paths, routine_names)`
pair, in order.  The result lists the `(routine_path, routine_name)`
argument pairs of those invocations, in invocation order. -/
def routine_multiple_inference (routine_paths : Option (List String))
    (routine_names : Option (List String)) :
    Except String (List (Option String × Option String)) :=
  match routine_paths, routine_names with
  | none, none =>
      Except.error "AttributeError: At least routine_paths or routine_names have to be specified."
  | some ps, _ =>
      Except.ok (ps.map (fun p => (some p, none)))
  | none, some ns =>
      Except.ok (ns.map (fun n => (none, some n)))

/-- Severity of a log line emitted during run finalization. -/
inductive LogLevel : Type where
  | info : LogLevel
  | warning : LogLevel
  | error : LogLevel
deriving DecidableEq, Repr

/-- Outcome of the run-finalization block: the filesystem contents after it
(`fs`, the set of existing paths), the log lines emitted, the calls made to
`file_manager.track_run` as `(registration key, path)` pairs, and the
effective output path at the end. -/
structure FinalizeResult : Type where
  fs : List String
  log : List (LogLevel × String)
  tracked : List (String × String)
  effectivePath : String
deriving DecidableEq, Repr

/-- Embeds the finalization tail of `run_component_from_key`
(api/commands.py, lines 152-164).  Inputs: the registration key, the
`run_name` argument, the temporary `serialization_path`, the manager's
`runs_registry` (temporary path to intended final path), and the
filesystem contents `fs0` (`p ∈ fs0` models `Path(p).exists()`).
Mirrors the source: when `run_name is not None and
serialization_path.exists()`, look up `runs_registry[serialization_path]`
(a missing entry raises `KeyError`); if the replacement path exists, log
one warning and skip the rename; otherwise rename the temporary path to
the replacement path (which becomes the effective path) and log one info
line.  Finally, if the (possibly renamed) path exists, call
`file_manager.track_run(key, path)`. -/
def finalizeRun (key : String) (run_name : Option String)
    (serialization_path : String) (runs_registry : String → Option String)
    (fs0 : List String) : Except String FinalizeResult :=
  let step1 : Except String (List String × List (LogLevel × String) × String) :=
    if run_name ≠ none ∧ serialization_path ∈ fs0 then
      match runs_registry serialization_path with
      | none => Except.error "KeyError"
      | some replacement_path =>
          if replacement_path ∈ fs0 then
            Except.ok (fs0,
              [(LogLevel.warning,
                "Replacement path already exists! Skipping replacement...")],
              serialization_path)
          else
            Except.ok (fs0.erase serialization_path ++ [replacement_path],
              [(LogLevel.info, "Renaming")],
              replacement_path)
    else
      Except.ok (fs0, [], serialization_path)
  match step1 with
  | Except.error e => Except.error e
  | Except.ok (fs1, log1, path1) =>
      let tracked : List (String × String) :=
        if path1 ∈ fs1 then [(key, path1)] else []
      Except.ok (FinalizeResult.mk fs1 log1 tracked path1)

/-! ## OrderedPipelineConfig (configurations/pipeline.py) -/

/-- The state of an `OrderedPipelineConfig` relevant to
`add_pipeline_component`: the registered pipeline-stage parameter names
and the `ordering` parameter (absent until first use, then a list of stage
names). -/
structure OrderedPipelineConfig : Type where
  stageParams : List String
  hasOrdering : Bool
  ordering : List String
deriving DecidableEq, Repr

/-- A freshly constructed `OrderedPipelineConfig`: no pipeline stages and no
`ordering` parameter yet. -/
def OrderedPipelineConfig.empty : OrderedPipelineConfig :=
  OrderedPipelineConfig.mk [] false []

/-- Python `list.insert(i, x)` semantics: a negative index counts from the
end, and the index is clamped into `[0, len]` before inserting. -/
def pyInsert (xs : List String) (i : ℤ) (x : String) : List String :=
  let n : ℤ := xs.length
  let j : ℤ := if i < 0 then max (i + n) 0 else min i n
  xs.insertIdx j.toNat x

/-- Embeds `OrderedPipelineConfig.add_pipeline_component`
(configurations/pipeline.py, lines 8-42), reduced to the state it touches:
registers the stage parameter (`add_short` with the `pipeline` tag), adds
the `ordering` parameter with value `[]` when `'ordering' not in self`,
then appends `name` to `ordering` when `order is None` and otherwise
executes `self.ordering.insert(order, name)`. -/
def OrderedPipelineConfig.add_pipeline_component
    (self : OrderedPipelineConfig) (name : String) (order : Option ℤ) :
    OrderedPipelineConfig :=
  let withParam := OrderedPipelineConfig.mk (self.stageParams ++ [name])
    self.hasOrdering self.ordering
  let withOrdering :=
    if withParam.hasOrdering then withParam
    else OrderedPipelineConfig.mk withParam.stageParams true []
  match order with
  | none => OrderedPipelineConfig.mk withOrdering.stageParams true
      (withOrdering.ordering ++ [name])
  | some i => OrderedPipelineConfig.mk withOrdering.stageParams true
      (pyInsert withOrdering.ordering i name)

/-! ## HyperoptCalibratorConfig (configurations/calibrator.py) -/

/-- The scalar parameters declared with defaults by
`HyperoptCalibratorConfig.get_default` (configurations/calibrator.py,
lines 98-175).  Python floats are modelled by `ℚ`, ints by `ℤ`, strings by
`String`, bools by `Bool`; the registration-key and opaque passthrough
parameters carry no default values relevant to validation and are
omitted. -/
structure HyperoptCalibratorConfig : Type where
  max_evaluations : ℤ
  mongo_directory : String
  mongo_workers_directory : String
  use_mongo : Bool
  mongo_address : String
  mongo_port : ℤ
  workers : ℤ
  reserve_timeout : ℚ
  max_consecutive_failures : ℤ
  poll_interval : ℚ
  use_subprocesses : Bool
  worker_sleep_interval : ℚ
deriving DecidableEq, Repr

/-- The default parameter values set by
`HyperoptCalibratorConfig.get_default` (configurations/calibrator.py,
lines 113-168): `max_evaluations = -1`, `mongo_directory = 'mongodb'`,
`mongo_workers_directory = 'mongo_workers'`, `use_mongo = False`,
`mongo_address = 'localhost'`, `mongo_port = 4000`, `workers = 2`,
`reserve_timeout = 10.0`, `max_consecutive_failures = 2`,
`poll_interval = 5.0`, `use_subprocesses = False`,
`worker_sleep_interval = 2.0`. -/
def HyperoptCalibratorConfig.get_default : HyperoptCalibratorConfig :=
  HyperoptCalibratorConfig.mk (-1) "mongodb" "mongo_workers" false
    "localhost" 4000 2 10 2 5 false 2

/-- The `worker_sleep_interval_minimum` condition added by
`add_condition_short` (configurations/calibrator.py, lines 170-171):
`parameters.worker_sleep_interval.value >= 0.5`. -/
def worker_sleep_interval_minimum (c : HyperoptCalibratorConfig) : Bool :=
  decide ((0.5 : ℚ) ≤ c.worker_sleep_interval)

/-- The `max_evaluations_minimum` condition added by `add_condition_short`
(configurations/calibrator.py, lines 172-173):
`parameters.max_evaluations > 0`. -/
def max_evaluations_minimum (c : HyperoptCalibratorConfig) : Bool :=
  decide ((0 : ℤ) < c.max_evaluations)

/-- Modelled from the spec: the configuration-validation machinery of the
external core library (`Configuration.validate`, not part of this
repository's sources) checks every declared cross-field condition; per the
spec, for `HyperoptCalibratorConfig` "Two cross-field validity conditions
are checked whenever this configuration is validated".  Validation
succeeds exactly when both declared conditions hold. -/
def HyperoptCalibratorConfig.passesConditions
    (c : HyperoptCalibratorConfig) : Bool :=
  worker_sleep_interval_minimum c && max_evaluations_minimum c

/-- Override of the `max_evaluations` parameter of a configuration, as a
caller would do before validation. -/
def HyperoptCalibratorConfig.setMaxEvaluations
    (c : HyperoptCalibratorConfig) (m : ℤ) : HyperoptCalibratorConfig :=
  HyperoptCalibratorConfig.mk m c.mongo_directory c.mongo_workers_directory
    c.use_mongo c.mongo_address c.mongo_port c.workers c.reserve_timeout
    c.max_consecutive_failures c.poll_interval c.use_subprocesses
    c.worker_sleep_interval

/-! ## Theorems settling the claims -/

/-- Claim C2: `Calibrator.evaluate_combination` raises a fatal error exactly
when the monitored metric value is absent (`None`) or not a real number
(not a Python `float`, the code's `type(...) != float` check); otherwise it
returns the negated metric value under the maximization direction and the
value unchanged under minimization. -/
theorem evaluate_combination_spec (cond : ValidateCondition) (v : PyValue) :
    ((∃ e, evaluate_combination cond v = Except.error e) ↔
      (v = PyValue.pynone ∨ v.isFloat = false)) ∧
    (∀ q : ℚ, v = PyValue.float q →
      evaluate_combination cond v =
        Except.ok (if cond = ValidateCondition.maximization then -q else q)) := by
  constructor
  · cases v <;> simp [evaluate_combination, PyValue.isFloat]
    split <;> simp
  · intro q hq
    subst hq
    cases cond <;> rfl

/-- Witness for C2: a concrete float metric under maximization is negated. -/
theorem evaluate_combination_spec_witness :
    evaluate_combination ValidateCondition.maximization (PyValue.float 2) =
      Except.ok (if ValidateCondition.maximization = ValidateCondition.maximization
        then -(2 : ℚ) else 2) :=
  (evaluate_combination_spec ValidateCondition.maximization (PyValue.float 2)).2 2 rfl

/-- Claim C3: the hookpoint-guard wrapper is transparent without a
`"callbacks"` keyword input (it returns exactly what the wrapped function
returns and fires no hookpoint), and with a callbacks value supplied it
fires `"{H}_begin"` exactly once before calling the function, calls the
function with all original inputs, fires `"{H}_end"` exactly once
afterwards with the function's own return value as `logs`, and returns
that value unchanged.  The event trace captures order and multiplicity. -/
theorem func_wrap_spec {α ε : Type} (hook : String) (f : Kwargs → Except ε α)
    (kwargs : Kwargs) :
    (List.lookup "callbacks" kwargs = none →
      func_wrap hook f kwargs = (f kwargs, [GEvent.callFunc kwargs])) ∧
    (∀ cb : String, List.lookup "callbacks" kwargs = some (some cb) →
      ∀ r : α, f kwargs = Except.ok r →
        func_wrap hook f kwargs =
          (Except.ok r,
            [GEvent.fire (hook ++ "_begin") none, GEvent.callFunc kwargs,
             GEvent.fire (hook ++ "_end") (some r)])) := by
  constructor
  · intro h
    cases hf : f kwargs <;> simp [func_wrap, h, hf]
  · intro cb h r hr
    simp [func_wrap, h, hr]

/-- Witness for C3: a concrete guarded call with and without a callbacks
input. -/
theorem func_wrap_spec_witness :
    func_wrap (ε := String) "on_fit" (fun _ => Except.ok (7 : ℚ))
        [("callbacks", some "cb")] =
      (Except.ok 7,
        [GEvent.fire ("on_fit" ++ "_begin") none,
         GEvent.callFunc [("callbacks", some "cb")],
         GEvent.fire ("on_fit" ++ "_end") (some 7)]) ∧
    func_wrap (ε := String) "on_fit" (fun _ => Except.ok (7 : ℚ))
        [("x", none)] =
      (Except.ok 7, [GEvent.callFunc [("x", none)]]) :=
  ⟨(func_wrap_spec "on_fit" (fun _ => Except.ok (7 : ℚ))
      [("callbacks", some "cb")]).2 "cb" rfl 7 rfl,
   (func_wrap_spec "on_fit" (fun _ => Except.ok (7 : ℚ))
      ([("x", none)] : Kwargs)).1 rfl⟩

/-- Claim C10: when a guarded call has a non-absent `"callbacks"` input and
the wrapped function raises, the `"{H}_begin"` hookpoint has already fired,
the `"{H}_end"` hookpoint never fires, and the exception propagates
unchanged to the caller. -/
theorem func_wrap_exception_spec {α ε : Type} (hook : String)
    (f : Kwargs → Except ε α) (kwargs : Kwargs) (cb : String)
    (hcb : List.lookup "callbacks" kwargs = some (some cb))
    (e : ε) (hf : f kwargs = Except.error e) :
    func_wrap hook f kwargs =
      (Except.error e,
        [GEvent.fire (hook ++ "_begin") none, GEvent.callFunc kwargs]) := by
  simp [func_wrap, hcb, hf]

/-- Witness for C10: a concrete raising function under the guard. -/
theorem func_wrap_exception_spec_witness :
    func_wrap (α := ℚ) "on_fit" (fun _ => Except.error "boom")
        [("callbacks", some "cb")] =
      (Except.error "boom",
        [GEvent.fire ("on_fit" ++ "_begin") none,
         GEvent.callFunc [("callbacks", some "cb")]]) :=
  func_wrap_exception_spec "on_fit" (fun _ => Except.error "boom")
    [("callbacks", some "cb")] "cb" rfl "boom" rfl

/-- Counterexample to claim C4: with both lists supplied,
`routine_multiple_inference` does not pair the caller's path with the
caller's corresponding name — it discards the supplied names and passes the
absent sentinel instead. -/
theorem routine_multiple_inference_counterexample :
    routine_multiple_inference (some ["p1"]) (some ["n1"]) =
      Except.ok [(some "p1", none)] ∧
    routine_multiple_inference (some ["p1"]) (some ["n1"]) ≠
      Except.ok [(some "p1", some "n1")] := by
  refine ⟨rfl, ?_⟩
  intro h
  simp [routine_multiple_inference] at h

/-- Claim C4 as amended: when `routine_paths` is supplied,
`routine_names` is replaced by an equal-length list of absent sentinels
(even when names were also supplied), and `routine_inference` is invoked
once per `(path, absent)` pair in list order; only when `routine_paths` is
absent is it the one normalized, each call receiving `(absent, name)` in
list order. -/
theorem routine_multiple_inference_amended
    (routine_paths routine_names : Option (List String)) :
    (∀ ps, routine_paths = some ps →
      routine_multiple_inference routine_paths routine_names =
        Except.ok (ps.map (fun p => (some p, none)))) ∧
    (∀ ns, routine_paths = none → routine_names = some ns →
      routine_multiple_inference routine_paths routine_names =
        Except.ok (ns.map (fun n => (none, some n)))) := by
  constructor
  · intro ps hps
    subst hps
    cases routine_names <;> rfl
  · intro ns hps hns
    subst hps
    subst hns
    rfl

/-- Witness for the amended C4: concrete both-supplied and names-only
calls. -/
theorem routine_multiple_inference_amended_witness :
    routine_multiple_inference (some ["p1", "p2"]) (some ["n1", "n2"]) =
      Except.ok [(some "p1", none), (some "p2", none)] ∧
    routine_multiple_inference none (some ["n1", "n2"]) =
      Except.ok [(none, some "n1"), (none, some "n2")] :=
  ⟨(routine_multiple_inference_amended (some ["p1", "p2"])
      (some ["n1", "n2"])).1 ["p1", "p2"] rfl,
   (routine_multiple_inference_amended none (some ["n1", "n2"])).2
      ["n1", "n2"] rfl rfl⟩

/-- Claim C5: the unmodified default `HyperoptCalibratorConfig` fails its
own validation — the `worker_sleep_interval_minimum` condition holds at the
default `2.0` but `max_evaluations_minimum` fails at the default `-1`, so
the conjunction of the declared conditions rejects the default, and passes
exactly when `max_evaluations` is overridden to a strictly positive
value. -/
theorem hyperopt_default_fails_validation :
    HyperoptCalibratorConfig.passesConditions
        HyperoptCalibratorConfig.get_default = false ∧
    worker_sleep_interval_minimum HyperoptCalibratorConfig.get_default = true ∧
    max_evaluations_minimum HyperoptCalibratorConfig.get_default = false ∧
    ∀ m : ℤ,
      HyperoptCalibratorConfig.passesConditions
          (HyperoptCalibratorConfig.get_default.setMaxEvaluations m) = true ↔
        0 < m := by
  refine ⟨?_, ?_, ?_, ?_⟩
  · simp [HyperoptCalibratorConfig.passesConditions,
      max_evaluations_minimum, HyperoptCalibratorConfig.get_default]
  · simp [worker_sleep_interval_minimum, HyperoptCalibratorConfig.get_default]
    norm_num
  · simp [max_evaluations_minimum, HyperoptCalibratorConfig.get_default]
  intro m
  simp [HyperoptCalibratorConfig.passesConditions,
    HyperoptCalibratorConfig.setMaxEvaluations,
    worker_sleep_interval_minimum, max_evaluations_minimum,
    HyperoptCalibratorConfig.get_default]
  norm_num

/-- Witness for C5: overriding `max_evaluations` to `5` makes the declared
conditions pass. -/
theorem hyperopt_default_fails_validation_witness :
    HyperoptCalibratorConfig.passesConditions
        (HyperoptCalibratorConfig.get_default.setMaxEvaluations 5) = true :=
  (hyperopt_default_fails_validation.2.2.2 5).2 (by decide)

/-- Unfolding lemma: an order-free `add_pipeline_component` call appends to
the (freshly created when absent) ordering list. -/
theorem apc_ordering_none (self : OrderedPipelineConfig) (name : String) :
    (self.add_pipeline_component name none).ordering =
      (if self.hasOrdering then self.ordering else []) ++ [name] := by
  cases hb : self.hasOrdering <;>
    simp [OrderedPipelineConfig.add_pipeline_component, hb]

/-- Unfolding lemma: an explicit-order `add_pipeline_component` call runs
Python `list.insert` on the (freshly created when absent) ordering list. -/
theorem apc_ordering_some (self : OrderedPipelineConfig) (name : String)
    (i : ℤ) :
    (self.add_pipeline_component name (some i)).ordering =
      pyInsert (if self.hasOrdering then self.ordering else []) i name := by
  cases hb : self.hasOrdering <;>
    simp [OrderedPipelineConfig.add_pipeline_component, hb]

/-- Python `list.insert` at an in-range non-negative index agrees with
`List.insertIdx`. -/
theorem pyInsert_ofNat (xs : List String) (k : ℕ) (x : String)
    (hk : k ≤ xs.length) :
    pyInsert xs (k : ℤ) x = xs.insertIdx k x := by
  have h0 : ¬ ((k : ℤ) < 0) := by omega
  have h1 : ((k : ℤ) ⊓ ((xs.length : ℕ) : ℤ)).toNat = k := by omega
  simp [pyInsert, h0, h1]

/-- Claim C7: `add_pipeline_component` with no explicit order appends the
stage name to the ordering list, and with an explicit in-range order
inserts the name at that position, shifting later names back; three
no-order calls on a fresh configuration yield the three names in call
order, and a fourth call with order 0 places its name first. -/
theorem add_pipeline_component_spec :
    (∀ (self : OrderedPipelineConfig) (name : String),
      self.hasOrdering = true ∨ self.ordering = [] →
      ((self.add_pipeline_component name none).ordering =
          self.ordering ++ [name] ∧
        ∀ k : ℕ, k ≤ self.ordering.length →
          (self.add_pipeline_component name (some (k : ℤ))).ordering =
            self.ordering.insertIdx k name)) ∧
    ((((OrderedPipelineConfig.empty.add_pipeline_component "a" none
        ).add_pipeline_component "b" none
        ).add_pipeline_component "c" none).ordering = ["a", "b", "c"] ∧
      ((((OrderedPipelineConfig.empty.add_pipeline_component "a" none
        ).add_pipeline_component "b" none
        ).add_pipeline_component "c" none
        ).add_pipeline_component "d" (some 0)).ordering =
        ["d", "a", "b", "c"]) := by
  constructor
  · intro self name h
    have heff : (if self.hasOrdering then self.ordering else []) = self.ordering := by
      rcases h with h | h
      · simp [h]
      · by_cases hb : self.hasOrdering <;> simp [hb, h]
    constructor
    · rw [apc_ordering_none, heff]
    · intro k hk
      rw [apc_ordering_some, heff, pyInsert_ofNat _ _ _ hk]
  · exact ⟨rfl, rfl⟩

/-- Witness for C7: a concrete append and a concrete in-range insertion. -/
theorem add_pipeline_component_spec_witness :
    ((OrderedPipelineConfig.mk ["a"] true ["a"]).add_pipeline_component
        "b" none).ordering = ["a"] ++ ["b"] ∧
    ((OrderedPipelineConfig.mk ["a"] true ["a"]).add_pipeline_component
        "b" (some ((0 : ℕ) : ℤ))).ordering = ["a"].insertIdx 0 "b" :=
  ⟨((add_pipeline_component_spec.1 (OrderedPipelineConfig.mk ["a"] true ["a"])
      "b" (Or.inl rfl)).1),
   ((add_pipeline_component_spec.1 (OrderedPipelineConfig.mk ["a"] true ["a"])
      "b" (Or.inl rfl)).2 0 (by decide))⟩

/-- Claim C8: when a run name was supplied, the temporary run path exists,
and its recorded final path already exists, finalization leaves the
filesystem untouched, logs exactly one warning (and nothing else), keeps
the temporary path as the effective output path, and records that
temporary path with the manager as the key's last output location. -/
theorem finalizeRun_existing_replacement (key run_name sp : String)
    (runs_registry : String → Option String) (fs0 : List String) (rp : String)
    (hsp : sp ∈ fs0) (hreg : runs_registry sp = some rp) (hrp : rp ∈ fs0) :
    finalizeRun key (some run_name) sp runs_registry fs0 =
      Except.ok (FinalizeResult.mk fs0
        [(LogLevel.warning,
          "Replacement path already exists! Skipping replacement...")]
        [(key, sp)] sp) := by
  simp [finalizeRun, hsp, hreg, hrp]

/-- Witness for C8: a concrete temporary path whose recorded final path
already exists. -/
theorem finalizeRun_existing_replacement_witness :
    finalizeRun "key1" (some "run") "tmp"
        (fun p => if p = "tmp" then some "final" else none)
        ["tmp", "final"] =
      Except.ok (FinalizeResult.mk ["tmp", "final"]
        [(LogLevel.warning,
          "Replacement path already exists! Skipping replacement...")]
        [("key1", "tmp")] "tmp") :=
  finalizeRun_existing_replacement "key1" "run" "tmp"
    (fun p => if p = "tmp" then some "final" else none)
    ["tmp", "final"] "final" (by decide) (by decide) (by decide)

/-- Counterexample to claim C9: invoking `Callback.run` is not "never an
error" — on the callback state produced by `Callback.__init__` (whose
`component` attribute is a plain `None` value, not a handler), requesting
hookpoint `"component"` raises `TypeError`, and the absent/default
hookpoint argument (`None`) raises `TypeError` inside `hasattr`. -/
theorem callback_run_counterexample :
    Callback.run initCallback (some "component") none =
      Except.error "TypeError: object is not callable" ∧
    Callback.run initCallback none none =
      Except.error "TypeError: hasattr(): attribute name must be string" :=
  ⟨rfl, rfl⟩

/-- Claim C9 as amended: for every hookpoint name that matches no attribute
of the callback, `Callback.run` performs no action and raises no error;
when the matching attribute is a hookpoint handler it is invoked exactly
once with `logs`.  (A hookpoint naming a non-handler attribute, or an
absent hookpoint argument, raises `TypeError` instead.) -/
theorem callback_run_amended (cb : Callback) (hp : String)
    (logs : Option PyValue) :
    (cb.attrs.lookup hp = none → cb.run (some hp) logs = Except.ok []) ∧
    (cb.attrs.lookup hp = some PyAttr.handler →
      cb.run (some hp) logs = Except.ok [CbEvent.invoked hp logs]) := by
  constructor <;> intro h <;> simp [Callback.run, h]

/-- Witness for the amended C9: a concrete missing hookpoint no-ops and a
concrete handler is invoked once. -/
theorem callback_run_amended_witness :
    (Callback.mk [("on_fit_begin", PyAttr.handler)]).run (some "missing")
        none = Except.ok [] ∧
    (Callback.mk [("on_fit_begin", PyAttr.handler)]).run (some "on_fit_begin")
        (some (PyValue.float 1)) =
      Except.ok [CbEvent.invoked "on_fit_begin" (some (PyValue.float 1))] :=
  ⟨(callback_run_amended (Callback.mk [("on_fit_begin", PyAttr.handler)])
      "missing" none).1 rfl,
   (callback_run_amended (Callback.mk [("on_fit_begin", PyAttr.handler)])
      "on_fit_begin" (some (PyValue.float 1))).2 rfl⟩

/-! ### Grid-search lemmas (claim C1) -/

/-- The evaluation loop of `GridSearchCalibrator.run` (append-accumulating
fold) produces the mapped list of `(score, combination)` pairs. -/
theorem foldl_append_eq_map {α β : Type} (g : α → β) (l : List α)
    (acc : List β) :
    l.foldl (fun a c => a ++ [g c]) acc = acc ++ l.map g := by
  induction l generalizing acc with
  | nil => simp
  | cons x t ih => simp [ih]

/-- The number of enumerated combinations is the product of the candidate
list lengths. -/
theorem length_combinations {α : Type} (sp : List (String × List α)) :
    (get_dict_values_combinations sp).length =
      (sp.map (fun p => p.2.length)).prod := by
  induction sp with
  | nil => rfl
  | cons p rest ih =>
    obtain ⟨k, vs⟩ := p
    simp only [get_dict_values_combinations, List.length_flatMap]
    have hconst : List.map (List.length ∘ fun v =>
        List.map (fun c => (k, v) :: c) (get_dict_values_combinations rest)) vs =
        List.map (fun _ => (get_dict_values_combinations rest).length) vs := by
      apply List.map_congr_left
      intro v _
      simp [Function.comp]
    rw [hconst, List.map_const', List.sum_replicate, smul_eq_mul, ih]
    simp [Nat.mul_comm]

/-- With every candidate list non-empty, the combination list is
non-empty. -/
theorem combinations_ne_nil {α : Type} (sp : List (String × List α))
    (h : ∀ p ∈ sp, p.2 ≠ []) : get_dict_values_combinations sp ≠ [] := by
  have hpos : 0 < (get_dict_values_combinations sp).length := by
    rw [length_combinations]
    apply List.prod_pos
    intro x hx
    simp only [List.mem_map] at hx
    obtain ⟨p, hp, hlen⟩ := hx
    have := h p hp
    subst hlen
    exact List.length_pos.mpr this
  exact List.ne_nil_of_length_pos hpos

/-- Equation lemma: `firstMinByFst` on a cons whose tail has no minimum
(the tail is empty). -/
theorem firstMinByFst_cons_none {α : Type} (x : ℚ × α) (t : List (ℚ × α))
    (hf : firstMinByFst t = none) : firstMinByFst (x :: t) = some x := by
  unfold firstMinByFst
  rw [hf]

/-- Equation lemma: `firstMinByFst` on a cons whose tail has minimum
`m'`. -/
theorem firstMinByFst_cons_some {α : Type} (x : ℚ × α) (t : List (ℚ × α))
    (m' : ℚ × α) (hf : firstMinByFst t = some m') :
    firstMinByFst (x :: t) = if x.1 ≤ m'.1 then some x else some m' := by
  unfold firstMinByFst
  rw [hf]

/-- The head of an ordered insertion into a non-empty list. -/
theorem head_orderedInsert_cons {β : Type} (r : β → β → Prop)
    [DecidableRel r] (x h : β) (t : List β) :
    (List.orderedInsert r x (h :: t)).head? =
      if r x h then some x else some h := by
  show (if r x h then x :: h :: t else h :: List.orderedInsert r x t).head? = _
  split <;> rfl

/-- The head of the stable ascending sort is the earliest element attaining
the minimal first component. -/
theorem head_pySortedByFst {α : Type} (l : List (ℚ × α)) :
    (pySortedByFst l).head? = firstMinByFst l := by
  induction l with
  | nil => rfl
  | cons x t ih =>
    show (List.orderedInsert (fun a b => a.1 ≤ b.1) x
      (List.insertionSort (fun a b => a.1 ≤ b.1) t)).head? = _
    cases hs : List.insertionSort (fun a b : ℚ × α => a.1 ≤ b.1) t with
    | nil =>
      have ihn : firstMinByFst t = none := by
        rw [← ih]
        show (List.insertionSort (fun a b : ℚ × α => a.1 ≤ b.1) t).head? = none
        rw [hs]
        rfl
      rw [firstMinByFst_cons_none x t ihn]
      rfl
    | cons b s =>
      have ihs : firstMinByFst t = some b := by
        rw [← ih]
        show (List.insertionSort (fun a b : ℚ × α => a.1 ≤ b.1) t).head? = some b
        rw [hs]
        rfl
      rw [head_orderedInsert_cons, firstMinByFst_cons_some x t b ihs]

/-- An element returned by `firstMinByFst` belongs to the list. -/
theorem firstMin_mem {α : Type} (l : List (ℚ × α)) (m : ℚ × α)
    (h : firstMinByFst l = some m) : m ∈ l := by
  induction l with
  | nil => cases h
  | cons x t ih =>
    cases hf : firstMinByFst t with
    | none =>
      rw [firstMinByFst_cons_none x t hf] at h
      simp only [Option.some.injEq] at h
      subst h
      exact List.mem_cons_self x t
    | some m' =>
      rw [firstMinByFst_cons_some x t m' hf] at h
      by_cases hle : x.1 ≤ m'.1
      · rw [if_pos hle] at h
        simp only [Option.some.injEq] at h
        subst h
        exact List.mem_cons_self x t
      · rw [if_neg hle] at h
        simp only [Option.some.injEq] at h
        subst h
        exact List.mem_cons_of_mem x (ih hf)

/-- `firstMinByFst` is defined on every non-empty list. -/
theorem firstMin_isSome {α : Type} (l : List (ℚ × α)) (h : l ≠ []) :
    ∃ m, firstMinByFst l = some m := by
  cases l with
  | nil => exact absurd rfl h
  | cons x t =>
    cases hf : firstMinByFst t with
    | none => exact ⟨x, firstMinByFst_cons_none x t hf⟩
    | some m' =>
      by_cases hle : x.1 ≤ m'.1
      · exact ⟨x, by rw [firstMinByFst_cons_some x t m' hf, if_pos hle]⟩
      · exact ⟨m', by rw [firstMinByFst_cons_some x t m' hf, if_neg hle]⟩

/-- An element returned by `firstMinByFst` has minimal first component. -/
theorem firstMin_le {α : Type} (l : List (ℚ × α)) (m : ℚ × α)
    (h : firstMinByFst l = some m) : ∀ q ∈ l, m.1 ≤ q.1 := by
  revert h
  induction l generalizing m with
  | nil => intro h; cases h
  | cons x t ih =>
    intro h q hq
    cases hf : firstMinByFst t with
    | none =>
      rw [firstMinByFst_cons_none x t hf] at h
      simp only [Option.some.injEq] at h
      subst h
      rcases List.mem_cons.mp hq with hq | hq
      · simp [hq]
      · exfalso
        have ht : t ≠ [] := List.ne_nil_of_mem hq
        obtain ⟨mm, hmm⟩ := firstMin_isSome t ht
        rw [hf] at hmm
        cases hmm
    | some m' =>
      rw [firstMinByFst_cons_some x t m' hf] at h
      by_cases hle : x.1 ≤ m'.1
      · rw [if_pos hle] at h
        simp only [Option.some.injEq] at h
        subst h
        rcases List.mem_cons.mp hq with hq | hq
        · simp [hq]
        · exact le_trans hle (ih _ hf q hq)
      · rw [if_neg hle] at h
        simp only [Option.some.injEq] at h
        subst h
        rcases List.mem_cons.mp hq with hq | hq
        · rw [hq]
          exact le_of_not_le hle
        · exact ih _ hf q hq

/-- Claim C1: with a validator set and a search space mapping each
parameter to a finite non-empty candidate list, `GridSearchCalibrator.run`
evaluates exactly the full cartesian product of the candidate lists (the
trace of `evaluate_combination` calls equals the enumerated combination
list, so each enumerated combination is evaluated exactly once, in
enumeration order; the total count is the product of the list lengths),
and returns the `(score, combination)` pair produced by stable-sorting the
collected pairs ascending by score and taking the first — the earliest
evaluated pair attaining the minimal score. -/
theorem gridSearch_run_spec {α : Type} (score : List (String × α) → ℚ)
    (sp : List (String × List α)) (h : ∀ p ∈ sp, p.2 ≠ []) :
    ∃ best : ℚ × List (String × α),
      GridSearchCalibrator.run (some score) (some sp) =
        Except.ok (best,
          (get_dict_values_combinations sp).map (fun c => (score c, c))) ∧
      (get_dict_values_combinations sp).length =
        (sp.map (fun p => p.2.length)).prod ∧
      firstMinByFst
          ((get_dict_values_combinations sp).map (fun c => (score c, c))) =
        some best ∧
      best ∈ (get_dict_values_combinations sp).map (fun c => (score c, c)) ∧
      ∀ q ∈ (get_dict_values_combinations sp).map (fun c => (score c, c)),
        best.1 ≤ q.1 := by
  have hne : (get_dict_values_combinations sp).map (fun c => (score c, c)) ≠ [] := by
    intro hcon
    exact combinations_ne_nil sp h (List.map_eq_nil_iff.mp hcon)
  obtain ⟨m, hm⟩ :=
    firstMin_isSome ((get_dict_values_combinations sp).map (fun c => (score c, c))) hne
  refine ⟨m, ?_, length_combinations sp, hm,
    firstMin_mem _ _ hm, firstMin_le _ _ hm⟩
  show (match pySortedByFst ((get_dict_values_combinations sp).foldl
        (fun acc c => acc ++ [(score c, c)]) []) with
      | [] => Except.error CalibErr.indexError
      | best :: _ => Except.ok (best, (get_dict_values_combinations sp).foldl
          (fun acc c => acc ++ [(score c, c)]) [])) = _
  rw [foldl_append_eq_map (fun c => (score c, c)) (get_dict_values_combinations sp) []]
  rw [List.nil_append]
  have hh : (pySortedByFst
      ((get_dict_values_combinations sp).map (fun c => (score c, c)))).head? =
      some m := by
    rw [head_pySortedByFst]
    exact hm
  cases hs : pySortedByFst
      ((get_dict_values_combinations sp).map (fun c => (score c, c))) with
  | nil => rw [hs] at hh; cases hh
  | cons b rest =>
    rw [hs] at hh
    simp only [List.head?_cons, Option.some.injEq] at hh
    subst hh
    rfl

/-- Witness for C1: a concrete one-parameter grid with two candidates. -/
theorem gridSearch_run_spec_witness :
    (∀ p ∈ ([("a", [(1 : ℚ), 2])] : List (String × List ℚ)), p.2 ≠ []) ∧
    ∃ best : ℚ × List (String × ℚ),
      GridSearchCalibrator.run (some (fun c => (c.map Prod.snd).sum))
          (some [("a", [(1 : ℚ), 2])]) =
        Except.ok (best,
          (get_dict_values_combinations [("a", [(1 : ℚ), 2])]).map
            (fun c => ((c.map Prod.snd).sum, c))) ∧
      (get_dict_values_combinations [("a", [(1 : ℚ), 2])]).length =
        (([("a", [(1 : ℚ), 2])] : List (String × List ℚ)).map
          (fun p => p.2.length)).prod ∧
      firstMinByFst
          ((get_dict_values_combinations [("a", [(1 : ℚ), 2])]).map
            (fun c => ((c.map Prod.snd).sum, c))) = some best ∧
      best ∈ (get_dict_values_combinations [("a", [(1 : ℚ), 2])]).map
          (fun c => ((c.map Prod.snd).sum, c)) ∧
      ∀ q ∈ (get_dict_values_combinations [("a", [(1 : ℚ), 2])]).map
          (fun c => ((c.map Prod.snd).sum, c)),
        best.1 ≤ q.1 :=
  ⟨by decide,
   gridSearch_run_spec (fun c => (c.map Prod.snd).sum)
     [("a", [(1 : ℚ), 2])] (by decide)⟩

/-! ### Search-space flattening lemmas (claim C6) -/

/-- A key matching no entry is not found by first-occurrence lookup. -/
theorem dlookup_eq_none (d : SDict) (k : String)
    (h : d.any (fun p => decide (p.1 = k)) = false) : dlookup d k = none := by
  induction d with
  | nil => rfl
  | cons p d ih =>
    obtain ⟨k0, v0⟩ := p
    simp only [List.any_cons, Bool.or_eq_false_iff] at h
    have hk : ¬ (k = k0) := by
      intro hh
      rw [hh] at h
      simp at h
    show (if k = k0 then some v0 else dlookup d k) = none
    rw [if_neg hk]
    exact ih h.2

/-- A key matching no entry is not found by last-occurrence lookup. -/
theorem lastLookup_eq_none (d : SDict) (k : String)
    (h : d.any (fun p => decide (p.1 = k)) = false) : lastLookup d k = none := by
  induction d with
  | nil => rfl
  | cons p d ih =>
    obtain ⟨k0, v0⟩ := p
    simp only [List.any_cons, Bool.or_eq_false_iff] at h
    have hk : ¬ (k = k0) := by
      intro hh
      rw [hh] at h
      simp at h
    show (lastLookup d k).orElse (fun _ => if k = k0 then some v0 else none) = none
    rw [ih h.2, if_neg hk]
    rfl

/-- First-occurrence lookup distributes over list append. -/
theorem dlookup_append (a b : SDict) (k : String) :
    dlookup (a ++ b) k = (dlookup a k).orElse (fun _ => dlookup b k) := by
  induction a with
  | nil => rfl
  | cons p a ih =>
    obtain ⟨k0, v0⟩ := p
    show (if k = k0 then some v0 else dlookup (a ++ b) k) = _
    by_cases hk : k = k0 <;> simp [hk, ih, dlookup]

/-- Last-occurrence lookup distributes over list append (the right side wins). -/
theorem lastLookup_append (a b : SDict) (k : String) :
    lastLookup (a ++ b) k = (lastLookup b k).orElse (fun _ => lastLookup a k) := by
  induction a with
  | nil =>
    show lastLookup b k = (lastLookup b k).orElse (fun _ => none)
    cases lastLookup b k <;> rfl
  | cons p a ih =>
    obtain ⟨k0, v0⟩ := p
    show (lastLookup (a ++ b) k).orElse (fun _ => if k = k0 then some v0 else none) = _
    rw [ih]
    show _ = (lastLookup b k).orElse
      (fun _ => (lastLookup a k).orElse (fun _ => if k = k0 then some v0 else none))
    cases lastLookup b k <;> rfl


/-- First-occurrence lookup after the in-place overwrite of every entry with key `k`. -/
theorem dlookup_map_overwrite (d : SDict) (k v k' : String) :
    dlookup (d.map (fun p => if p.1 = k then (k, v) else p)) k' =
      if k' = k ∧ d.any (fun p => decide (p.1 = k)) = true then some v
      else dlookup d k' := by
  induction d with
  | nil => simp [dlookup]
  | cons p d ih =>
    obtain ⟨pk, pv⟩ := p
    rw [List.map_cons]
    by_cases hpk : pk = k
    · subst hpk
      rw [show (if ((pk, pv) : String × String).1 = pk then (pk, v) else (pk, pv)) = (pk, v)
        from by simp]
      rw [show (((pk, pv) :: d).any fun p => decide (p.1 = pk)) = true from by simp]
      simp only [dlookup]
      rw [ih]
      by_cases hk : k' = pk <;> simp [hk]
    · rw [show (if ((pk, pv) : String × String).1 = k then (k, v) else (pk, pv)) = (pk, pv)
        from by simp [hpk]]
      rw [show (((pk, pv) :: d).any fun p => decide (p.1 = k)) =
        (d.any fun p => decide (p.1 = k)) from by simp [hpk]]
      simp only [dlookup]
      rw [ih]
      by_cases hk0 : k' = pk
      · have hk : ¬ (k' = k) := by
          rw [hk0]
          exact hpk
        simp [hk0, hk, hpk]
      · simp [hk0]

/-- Last-occurrence lookup after the in-place overwrite of every entry with key `k`. -/
theorem lastLookup_map_overwrite (d : SDict) (k v k' : String) :
    lastLookup (d.map (fun p => if p.1 = k then (k, v) else p)) k' =
      if k' = k ∧ d.any (fun p => decide (p.1 = k)) = true then some v
      else lastLookup d k' := by
  induction d with
  | nil => simp [lastLookup]
  | cons p d ih =>
    obtain ⟨pk, pv⟩ := p
    rw [List.map_cons]
    by_cases hpk : pk = k
    · subst hpk
      rw [show (if ((pk, pv) : String × String).1 = pk then (pk, v) else (pk, pv)) = (pk, v)
        from by simp]
      rw [show (((pk, pv) :: d).any fun p => decide (p.1 = pk)) = true from by simp]
      simp only [lastLookup]
      rw [ih]
      by_cases hk : k' = pk
      · subst hk
        cases hany : (d.any fun p => decide (p.1 = k')) with
        | true => simp [hany]
        | false =>
          rw [lastLookup_eq_none d k' hany]
          simp
      · simp only [hk, false_and, if_false]
    · rw [show (if ((pk, pv) : String × String).1 = k then (k, v) else (pk, pv)) = (pk, pv)
        from by simp [hpk]]
      rw [show (((pk, pv) :: d).any fun p => decide (p.1 = k)) =
        (d.any fun p => decide (p.1 = k)) from by simp [hpk]]
      simp only [lastLookup]
      rw [ih]
      by_cases hcond : k' = k ∧ (d.any fun p => decide (p.1 = k)) = true
      · rw [if_pos hcond, if_pos hcond]
        rfl
      · rw [if_neg hcond, if_neg hcond]

/-- First-occurrence lookup after one dict write. -/
theorem dlookup_dictInsert (d : SDict) (k v k' : String) :
    dlookup (dictInsert d k v) k' = if k' = k then some v else dlookup d k' := by
  cases hany : (d.any fun p => decide (p.1 = k)) with
  | true =>
    unfold dictInsert
    rw [hany, if_pos rfl, dlookup_map_overwrite]
    by_cases hk : k' = k <;> simp [hk, hany]
  | false =>
    unfold dictInsert
    rw [hany]
    rw [if_neg (by simp)]
    rw [dlookup_append]
    by_cases hk : k' = k
    · subst hk
      rw [dlookup_eq_none d k' hany]
      simp [dlookup]
    · cases hd : dlookup d k' <;> simp [dlookup, hk, hd]

/-- Last-occurrence lookup after one dict write. -/
theorem lastLookup_dictInsert (d : SDict) (k v k' : String) :
    lastLookup (dictInsert d k v) k' =
      if k' = k then some v else lastLookup d k' := by
  cases hany : (d.any fun p => decide (p.1 = k)) with
  | true =>
    unfold dictInsert
    rw [hany, if_pos rfl, lastLookup_map_overwrite]
    by_cases hk : k' = k <;> simp [hk, hany]
  | false =>
    unfold dictInsert
    rw [hany]
    rw [if_neg (by simp)]
    rw [lastLookup_append]
    by_cases hk : k' = k
    · subst hk
      rw [lastLookup_eq_none d k' hany]
      simp [lastLookup]
    · have hkk : ¬ (k = k') := fun hh => hk hh.symm
      rw [lastLookup_eq_none [(k, v)] k' (by simp [hkk])]
      simp [hk]

/-- First-occurrence lookup in a Python merge of two dicts: the last write of `b` wins, else `a` is read. -/
theorem dlookup_dictMerge (a b : SDict) (k : String) :
    dlookup (dictMerge a b) k =
      (lastLookup b k).orElse (fun _ => dlookup a k) := by
  induction b generalizing a with
  | nil =>
    show dlookup a k = (Option.none).orElse (fun _ => dlookup a k)
    rfl
  | cons p b ih =>
    obtain ⟨k0, v0⟩ := p
    show dlookup (dictMerge (dictInsert a k0 v0) b) k = _
    rw [ih, dlookup_dictInsert]
    show _ = ((lastLookup b k).orElse (fun _ => if k = k0 then some v0 else none)).orElse
      (fun _ => dlookup a k)
    cases lastLookup b k <;> by_cases hk : k = k0 <;> simp [hk]

/-- Last-occurrence lookup in a Python merge of two dicts. -/
theorem lastLookup_dictMerge (a b : SDict) (k : String) :
    lastLookup (dictMerge a b) k =
      (lastLookup b k).orElse (fun _ => lastLookup a k) := by
  induction b generalizing a with
  | nil =>
    show lastLookup a k = (Option.none).orElse (fun _ => lastLookup a k)
    rfl
  | cons p b ih =>
    obtain ⟨k0, v0⟩ := p
    show lastLookup (dictMerge (dictInsert a k0 v0) b) k = _
    rw [ih, lastLookup_dictInsert]
    show _ = ((lastLookup b k).orElse (fun _ => if k = k0 then some v0 else none)).orElse
      (fun _ => lastLookup a k)
    cases lastLookup b k <;> by_cases hk : k = k0 <;> simp [hk]

mutual

/-- The buffer-threading recursion of `get_search_space` computes, up to the
mapping it denotes, the compositional flattening `specFlatten` merged into
the incoming buffer. -/
theorem gss_extEq (cfg : TunableConfiguration) (buffer : SDict)
    (parentKey : Option String) (h : cfg.allCalibSet = true) :
    ∃ d, cfg.get_search_space buffer parentKey = Except.ok d ∧
      ∀ k, dlookup d k =
        dlookup (dictMerge buffer (specFlatten cfg parentKey)) k := by
  cases cfg with
  | mk calib children =>
    cases calib with
    | none =>
      exfalso
      simp [TunableConfiguration.allCalibSet] at h
    | some entries =>
      have hch : allCalibSetChildren children = true := by
        simp [TunableConfiguration.allCalibSet] at h
        exact h
      obtain ⟨d1, hd1, hext1⟩ := gssChildren_extEq children buffer parentKey hch
      refine ⟨dictMerge d1 (entries.map fun kv => (dottedKey parentKey kv.1, kv.2)),
        ?_, ?_⟩
      · show (match searchSpaceChildren children buffer parentKey with
          | Except.error e => Except.error e
          | Except.ok buf => Except.ok (dictMerge buf
              (entries.map (fun kv : String × String =>
                (dottedKey parentKey kv.1, kv.2))))) = _
        rw [hd1]
      · intro k
        simp only [dlookup_dictMerge, hext1]
        rw [show specFlatten (TunableConfiguration.mk (some entries) children)
            parentKey =
          dictMerge (specFlattenChildren children parentKey)
            (entries.map (fun kv => (dottedKey parentKey kv.1, kv.2))) from rfl]
        simp only [lastLookup_dictMerge]
        cases lastLookup (entries.map fun kv => (dottedKey parentKey kv.1, kv.2)) k <;>
          cases lastLookup (specFlattenChildren children parentKey) k <;> rfl

/-- The children loop of `get_search_space` computes, up to the mapping it
denotes, the merged children flattening applied to the incoming buffer. -/
theorem gssChildren_extEq (cs : List (String × TunableConfiguration))
    (buffer : SDict) (parentKey : Option String)
    (h : allCalibSetChildren cs = true) :
    ∃ d, searchSpaceChildren cs buffer parentKey = Except.ok d ∧
      ∀ k, dlookup d k =
        dlookup (dictMerge buffer (specFlattenChildren cs parentKey)) k := by
  cases cs with
  | nil => exact ⟨buffer, rfl, fun k => rfl⟩
  | cons c rest =>
    obtain ⟨n, child⟩ := c
    have h1 : child.allCalibSet = true := by
      simp [allCalibSetChildren] at h
      exact h.1
    have h2 : allCalibSetChildren rest = true := by
      simp [allCalibSetChildren] at h
      exact h.2
    obtain ⟨d1, hd1, hext1⟩ :=
      gss_extEq child buffer (some (dottedKey parentKey n)) h1
    obtain ⟨d2, hd2, hext2⟩ := gssChildren_extEq rest d1 parentKey h2
    refine ⟨d2, ?_, ?_⟩
    · show (match child.get_search_space buffer (some (dottedKey parentKey n)) with
        | Except.error e => Except.error e
        | Except.ok b => searchSpaceChildren rest b parentKey) = _
      rw [hd1]
      exact hd2
    · intro k
      rw [hext2 k]
      simp only [dlookup_dictMerge, hext1]
      rw [show specFlattenChildren ((n, child) :: rest) parentKey =
        dictMerge (specFlatten child (some (dottedKey parentKey n)))
          (specFlattenChildren rest parentKey) from rfl]
      simp only [lastLookup_dictMerge]
      cases lastLookup (specFlattenChildren rest parentKey) k <;>
        cases lastLookup (specFlatten child (some (dottedKey parentKey n))) k <;> rfl

end

/-- Claim C6: for every tunable configuration with `calibration_config` set
throughout (children are tunable by construction of the model),
`get_search_space` returns a single flat mapping that reads exactly as the
spec-level flattening: each nested child's entries appear under keys
prefixed by the dot-joined path of field names leading to that child, and
each configuration's own calibration entries sit at its own prefix level,
merged after the children's entries so a later entry overwrites an earlier
one with the identical dotted key.  On the two-level example with one entry
per level the result has exactly two keys, one unprefixed and one prefixed
by the child field's name. -/
theorem tunable_get_search_space_spec :
    (∀ cfg : TunableConfiguration, cfg.allCalibSet = true →
      ∃ d, cfg.get_search_space [] none = Except.ok d ∧
        ∀ k, dlookup d k = lastLookup (specFlatten cfg none) k) ∧
    exampleRoot.get_search_space [] none =
      Except.ok [("child.entry2", "v2"), ("entry1", "v1")] := by
  constructor
  · intro cfg h
    obtain ⟨d, hd, hext⟩ := gss_extEq cfg [] none h
    refine ⟨d, hd, fun k => ?_⟩
    rw [hext k, dlookup_dictMerge]
    cases lastLookup (specFlatten cfg none) k <;> rfl
  · rfl

/-- Witness for C6: the two-level example satisfies the hypothesis and the
flattening equation. -/
theorem tunable_get_search_space_spec_witness :
    exampleRoot.allCalibSet = true ∧
    ∃ d, exampleRoot.get_search_space [] none = Except.ok d ∧
      ∀ k, dlookup d k = lastLookup (specFlatten exampleRoot none) k :=
  ⟨rfl, tunable_get_search_space_spec.1 exampleRoot rfl⟩

end Cinnamon
